import Mathlib

/-!
Verification of the span-extraction pipeline of the http_message crate.

The buffer is modelled as a `List Char`; byte offsets are `Nat`s computed
with `Char.utf8Size`, matching Rust's `char_indices`/`len_utf8`. Fallible
slicing (`text.get(range)`, `&v[a..b]`) is modelled with `Option`; a Rust
assertion failure, `unwrap`/`expect` on `None`, or out-of-range slice is the
`Outcome.fatal` result of a parse.
-/

/-- Embeds `span.rs`'s `pub type Span = Range<usize>`: a half-open byte
range `start..stop` into the message buffer. -/
structure Span where
  start : Nat
  stop : Nat
deriving DecidableEq, Repr

/-- Embeds Rust's `Range::len`: `end - start`. -/
def spanLen (s : Span) : Nat := s.stop - s.start

/-- Embeds Rust's `char::is_whitespace`: the Unicode White_Space property
(the 25 code points 0009-000D, 0020, 0085, 00A0, 1680, 2000-200A, 2028,
2029, 202F, 205F, 3000). -/
def rustIsWhitespace (c : Char) : Bool :=
  let n := c.toNat
  (0x09 ≤ n && n ≤ 0x0D) || n == 0x20 || n == 0x85 || n == 0xA0 ||
    n == 0x1680 || (0x2000 ≤ n && n ≤ 0x200A) || n == 0x2028 ||
    n == 0x2029 || n == 0x202F || n == 0x205F || n == 0x3000

/-- Byte length of a buffer, as Rust's `str::len` sees it (UTF-8). -/
def utf8Len : List Char → Nat
  | [] => 0
  | c :: cs => c.utf8Size + utf8Len cs

/-- Embeds Rust's `str::trim`: strip leading and trailing whitespace
characters. -/
def rustTrim (cs : List Char) : List Char :=
  ((cs.dropWhile rustIsWhitespace).reverse.dropWhile rustIsWhitespace).reverse

/-- The character whose UTF-8 encoding starts at byte offset `n`, if `n` is
such a boundary. -/
def charAtByte? : List Char → Nat → Option Char
  | [], _ => none
  | c :: cs, n =>
    if n == 0 then some c
    else if n < c.utf8Size then none
    else charAtByte? cs (n - c.utf8Size)

/-- Whether byte offset `n` is on a character boundary of the buffer
(including the end-of-buffer position), as Rust's `str::get` checks. -/
def isBoundary : List Char → Nat → Bool
  | _, 0 => true
  | [], _ => false
  | c :: cs, n => if n < c.utf8Size then false else isBoundary cs (n - c.utf8Size)

/-- Embeds `assert_text_span` from both request modules: `text.get(span)`
succeeds exactly when the range is ordered, in bounds and on character
boundaries. -/
def assert_text_span (text : List Char) (s : Span) : Bool :=
  s.start ≤ s.stop && isBoundary text s.start && isBoundary text s.stop

/-- Embeds a Rust slice `&v[a..b]`: `some` of the sub-list when
`a <= b <= v.len()`, `none` (an out-of-range fault) otherwise. -/
def rustSlice {α : Type} (xs : List α) (a b : Nat) : Option (List α) :=
  if a ≤ b ∧ b ≤ xs.length then some ((xs.drop a).take (b - a)) else none

/-- The characters of the buffer covered by a (boundary-aligned) span:
those whose byte offset lies in `start..stop`. -/
def sliceSpanAux : List Char → Nat → Span → List Char
  | [], _, _ => []
  | c :: cs, pos, s =>
    if s.start ≤ pos ∧ pos < s.stop then c :: sliceSpanAux cs (pos + c.utf8Size) s
    else sliceSpanAux cs (pos + c.utf8Size) s

/-- Embeds `&input[span]` for a line span. -/
def sliceSpan (input : List Char) (s : Span) : List Char := sliceSpanAux input 0 s

/-- The scanning loop of `span.rs`'s `get_line_spans`: `start` is the byte
offset of the current line's first byte, `pos` the offset of the next
character; on a line feed the current span is closed, and after the scan an
unterminated non-empty trailing line is emitted. -/
def get_line_spans_aux : List Char → Nat → Nat → List Span
  | [], start, pos => if start < pos then [⟨start, pos⟩] else []
  | c :: cs, start, pos =>
    if c == '\n' then
      ⟨start, pos + c.utf8Size⟩ :: get_line_spans_aux cs (pos + c.utf8Size) (pos + c.utf8Size)
    else
      get_line_spans_aux cs start (pos + c.utf8Size)

/-- Embeds `span.rs`'s `get_line_spans`. -/
def get_line_spans (input : List Char) : List Span :=
  get_line_spans_aux input 0 0

/-- The loop of `parse_first_line` (identical in `partial_request.rs` and
`parsed_request.rs`): `pos` is the byte offset of the current character,
`last_end` the offset one past the last recorded whitespace character.
Note: on whitespace the source sets `last_end = i + 1`, one byte past the
character's first byte, not `i + len_utf8`. -/
def parse_first_line_aux : List Char → Nat → Nat → List Span → List Span
  | [], pos, last_end, parts =>
    if last_end < pos then parts ++ [⟨last_end, pos⟩] else parts
  | c :: cs, pos, last_end, parts =>
    if rustIsWhitespace c then
      parse_first_line_aux cs (pos + c.utf8Size) (pos + 1)
        (if pos > last_end then parts ++ [⟨last_end, pos⟩] else parts)
    else
      parse_first_line_aux cs (pos + c.utf8Size) last_end parts

/-- Embeds `parse_first_line`: up to three whitespace-delimited token spans
(method, uri, http version) of the first line. -/
def parse_first_line (first_line : List Char) :
    Option Span × Option Span × Option Span :=
  let parts := parse_first_line_aux first_line 0 0 []
  (parts.get? 0, parts.get? 1, parts.get? 2)

/-- Embeds `error.rs`'s `Error`. -/
inductive Error where
  | emptyHttpMessage
  | missingRequired (key : String)
deriving DecidableEq, Repr

/-- The result of running a parse: a value, a typed error, or a fatal stop
(a failed Rust assertion, a failed `unwrap`/`expect`, or an out-of-range
slice). -/
inductive Outcome (α : Type) where
  | ok (value : α)
  | err (e : Error)
  | fatal
deriving DecidableEq, Repr

/-- Embeds `partial_request.rs`'s `PartialHttpRequest`. -/
structure PartialHttpRequest where
  message : List Char
  method : Option Span
  uri : Option Span
  http_version : Option Span
  headers : List Span
  body : Option Span
deriving DecidableEq, Repr

/-- Embeds the `Display` impl for `PartialHttpRequest`: it writes
`self.message()` verbatim. -/
def PartialHttpRequest.render (r : PartialHttpRequest) : List Char := r.message

/-- Embeds `parsed_request.rs`'s `ParsedHttpRequest` (method, uri and
version are mandatory). -/
structure ParsedHttpRequest where
  message : List Char
  method : Span
  uri : Span
  http_version : Span
  headers : List Span
  body : Option Span
deriving DecidableEq, Repr

/-- Embeds the `Display` impl for `ParsedHttpRequest`. -/
def ParsedHttpRequest.render (r : ParsedHttpRequest) : List Char := r.message

/-- Embeds `PartialHttpRequest::verify_spans` as the conjunction of its
assertions: each present span non-inverted and a valid text range; the uri
wholly after the method and the version wholly after the uri when both are
present; headers and body checked for validity only. -/
def PartialHttpRequest.verify_spans (message : List Char)
    (method uri http_version : Option Span) (headers : List Span)
    (body : Option Span) : Bool :=
  (match method with
   | none => true
   | some s => decide (s.start < s.stop) && assert_text_span message s) &&
  (match uri with
   | none => true
   | some s =>
     decide (s.start < s.stop) && assert_text_span message s &&
     (match method with
      | none => true
      | some m => decide (m.start < s.start) && decide (m.stop < s.start))) &&
  (match http_version with
   | none => true
   | some s =>
     decide (s.start < s.stop) && assert_text_span message s &&
     (match uri with
      | none => true
      | some u => decide (u.start < s.start) && decide (u.stop < s.start))) &&
  headers.all (fun s => decide (s.start < s.stop) && assert_text_span message s) &&
  (match body with
   | none => true
   | some s => decide (s.start < s.stop) && assert_text_span message s)

/-- Embeds `PartialHttpRequest::parsed`: build the view, then run
`verify_spans`, a failed assertion being fatal. -/
def PartialHttpRequest.parsed (message : List Char)
    (method uri http_version : Option Span) (headers : List Span)
    (body : Option Span) : Outcome PartialHttpRequest :=
  if PartialHttpRequest.verify_spans message method uri http_version headers body then
    .ok ⟨message, method, uri, http_version, headers, body⟩
  else
    .fatal

/-- Embeds `ParsedHttpRequest::verify_spans`: method, uri and version are
mandatory; the body assertion is `start <= end` (not strict, unlike the
lenient mode). -/
def ParsedHttpRequest.verify_spans (message : List Char)
    (method uri http_version : Span) (headers : List Span)
    (body : Option Span) : Bool :=
  (decide (method.start < method.stop) && assert_text_span message method) &&
  (decide (uri.start < uri.stop) && assert_text_span message uri &&
    decide (method.start < uri.start) && decide (method.stop < uri.start)) &&
  (decide (http_version.start < http_version.stop) &&
    assert_text_span message http_version &&
    decide (uri.start < http_version.start) && decide (uri.stop < http_version.start)) &&
  headers.all (fun s => decide (s.start < s.stop) && assert_text_span message s) &&
  (match body with
   | none => true
   | some s => decide (s.start ≤ s.stop) && assert_text_span message s)

/-- Embeds `ParsedHttpRequest::parsed`. -/
def ParsedHttpRequest.parsed (message : List Char)
    (method uri http_version : Span) (headers : List Span)
    (body : Option Span) : Outcome ParsedHttpRequest :=
  if ParsedHttpRequest.verify_spans message method uri http_version headers body then
    .ok ⟨message, method, uri, http_version, headers, body⟩
  else
    .fatal

/-- Embeds `partial_request.rs`'s `get_header_and_body_spans`: on the first
blank line's index, header spans are `line_spans[1..idx]` and body spans
`line_spans[idx..]`; with no blank line, header spans are `line_spans[1..]`
and there are no body spans. `none` models the out-of-range slice fault
(`[1..0]` when the blank line is the first line, or `[1..]` of an empty
vector). -/
def partialGetHeaderAndBodySpans (line_spans : List Span)
    (first_empty_line_idx : Option Nat) :
    Option (List Span × Option (List Span)) :=
  match first_empty_line_idx with
  | some idx =>
    match rustSlice line_spans 1 idx, rustSlice line_spans idx line_spans.length with
    | some header_spans, some body_spans => some (header_spans, some body_spans)
    | _, _ => none
  | none =>
    match rustSlice line_spans 1 line_spans.length with
    | some header_spans => some (header_spans, none)
    | none => none

/-- Embeds `parsed_request.rs`'s `get_header_and_body_spans`: the blank
line index is mandatory there. -/
def parsedGetHeaderAndBodySpans (line_spans : List Span)
    (first_empty_line_idx : Nat) :
    Option (List Span × Option (List Span)) :=
  match rustSlice line_spans 1 first_empty_line_idx,
        rustSlice line_spans first_empty_line_idx line_spans.length with
  | some header_spans, some body_spans => some (header_spans, some body_spans)
  | _, _ => none

/-- Embeds `partial_request.rs`'s `get_span_extent_from_spans`: from the
body line spans (blank line included), the span from one past the blank
line's start to the last line's end; `none` only when the list is empty.
No empty-span normalization in this (lenient) version. -/
def partialGetSpanExtentFromSpans (body_spans : Option (List Span)) : Option Span :=
  body_spans.bind fun spans =>
    match spans.head?, spans.getLast? with
    | some first, some last => some ⟨first.start + 1, last.stop⟩
    | _, _ => none

/-- Embeds `parsed_request.rs`'s `get_span_extent_from_spans`: same
computation, but a resulting empty span (`start >= end`) is normalized to
`none`. -/
def parsedGetSpanExtentFromSpans (body_spans : Option (List Span)) : Option Span :=
  let body_span := body_spans.bind fun spans =>
    match spans.head?, spans.getLast? with
    | some first, some last => some ⟨first.start + 1, last.stop⟩
    | _, _ => none
  match body_span with
  | some s => if s.stop ≤ s.start then none else some s
  | none => none

/-- The request-line tokens computed by `parse_request` in lenient mode:
`line_spans.first().map(|span| &input[span]).map(parse_first_line)
.unwrap_or((None, None, None))`. -/
def partialFirstLineParts (input : List Char) :
    Option Span × Option Span × Option Span :=
  match (get_line_spans input).head? with
  | some first_line => parse_first_line (sliceSpan input first_line)
  | none => (none, none, none)

/-- Embeds `partial_request.rs`'s `parse_request` (the body of
`PartialHttpRequest::from_str`). -/
def partialParseRequest (input : List Char) : Outcome PartialHttpRequest :=
  if (rustTrim input).isEmpty then
    PartialHttpRequest.parsed input none none none [] none
  else
    match partialGetHeaderAndBodySpans (get_line_spans input)
        ((get_line_spans input).findIdx? (fun s => spanLen s == 1)) with
    | none => .fatal
    | some (header_spans, body_spans) =>
      PartialHttpRequest.parsed input
        (partialFirstLineParts input).1
        (partialFirstLineParts input).2.1
        (partialFirstLineParts input).2.2
        header_spans
        (partialGetSpanExtentFromSpans body_spans)

/-- Embeds `parsed_request.rs`'s `parse_request` (the body of
`ParsedHttpRequest::from_str`): an empty trimmed buffer is the typed
`EmptyHttpMessage` error; a missing blank line, a missing first line or a
missing request-line token is a fatal `expect`/`unwrap`. -/
def parsedParseRequest (input : List Char) : Outcome ParsedHttpRequest :=
  if (rustTrim input).isEmpty then
    .err .emptyHttpMessage
  else
    match (get_line_spans input).findIdx? (fun s => spanLen s == 1) with
    | none => .fatal
    | some first_empty_line_idx =>
      match (get_line_spans input).head? with
      | none => .fatal
      | some first_line =>
        match parse_first_line (sliceSpan input first_line) with
        | (some method, some uri, some http_version) =>
          match parsedGetHeaderAndBodySpans (get_line_spans input) first_empty_line_idx with
          | none => .fatal
          | some (header_spans, body_spans) =>
            ParsedHttpRequest.parsed input method uri http_version header_spans
              (parsedGetSpanExtentFromSpans body_spans)
        | _ => .fatal

/-! ## Validated conversion to the structured request -/

/-- Embeds `request.rs`'s `HttpMethod`. -/
inductive HttpMethod where
  | GET
  | POST
  | PUT
  | PATCH
  | DELETE
  | HEAD
  | OPTIONS
  | other (text : List Char)
deriving DecidableEq, Repr

/-- Embeds `request.rs`'s `impl From<&str> for HttpMethod`. -/
def HttpMethod.ofChars (value : List Char) : HttpMethod :=
  if value = ("GET").toList then .GET
  else if value = ("POST").toList then .POST
  else if value = ("PUT").toList then .PUT
  else if value = ("PATCH").toList then .PATCH
  else if value = ("DELETE").toList then .DELETE
  else if value = ("HEAD").toList then .HEAD
  else if value = ("OPTIONS").toList then .OPTIONS
  else .other value

/-- Embeds `headers.rs`'s `impl From<&str> for HttpHeader`: the text before
the first colon is the key, the text after it trimmed of surrounding
whitespace is the value; a line with no colon is a fatal `expect`
(modelled as `none`). -/
def httpHeaderOfChars (value : List Char) : Option (List Char × List Char) :=
  if value.any (fun c => c == ':') then
    some (value.takeWhile (fun c => !(c == ':')),
      rustTrim ((value.dropWhile (fun c => !(c == ':'))).drop 1))
  else
    none

/-- The owned structured request of `request.rs`'s `HttpRequest`, with the
uri and version kept as their text (their validation and normalization are
delegated to external collaborators in the source and are out of scope). -/
structure HttpRequest where
  uri : List Char
  method : HttpMethod
  http_version : List Char
  headers : List (List Char × List Char)
  body : Option (List Char)
deriving DecidableEq, Repr

/-- Modelled from the spec: the Lenient View → Structured Request
conversion (the `TryFrom<PartialHttpRequest> for HttpRequest` with
`Error` that the crate's own tests invoke via `try_into`). Its
implementation is missing from the staged sources — `request.rs`'s `From`
impl is a stale draft against an older `PartialHttpRequest` API (it calls
accessors that no longer exist and defaults the version). Per spec
section 4.7 the conversion fails with `MissingRequired` naming whichever
of method/target/version is absent, checked in method → target → version
order; on success each header line is split on its first colon with the
value trimmed (the real embedded header splitter) and the body text is
taken verbatim. -/
def tryIntoHttpRequest (v : PartialHttpRequest) : Outcome HttpRequest :=
  match v.method with
  | none => .err (.missingRequired "method")
  | some m =>
    match v.uri with
    | none => .err (.missingRequired "uri")
    | some u =>
      match v.http_version with
      | none => .err (.missingRequired "http version")
      | some hv =>
        match v.headers.mapM (fun s => httpHeaderOfChars (sliceSpan v.message s)) with
        | none => .fatal
        | some hdrs =>
          .ok ⟨sliceSpan v.message u, HttpMethod.ofChars (sliceSpan v.message m),
            sliceSpan v.message hv, hdrs, v.body.map fun s => sliceSpan v.message s⟩

/-- A span passes the per-span assertions of `verify_spans`: non-inverted
and a valid text range of the message. -/
def SpanWf (message : List Char) (s : Span) : Prop :=
  s.start < s.stop ∧ assert_text_span message s = true

/-! ## Properties of the line span scanner -/

/-- A list of spans is an exact, ordered, gap-free partition of the byte
range `a..b`: the first span starts at `a`, each span is non-empty and ends
where the next begins, and the last ends at `b`. -/
def contiguous : Nat → List Span → Nat → Bool
  | a, [], b => a == b
  | a, s :: ss, b => (s.start == a) && decide (s.start < s.stop) && contiguous s.stop ss b

theorem utf8Len_append (xs ys : List Char) :
    utf8Len (xs ++ ys) = utf8Len xs + utf8Len ys := by
  induction xs with
  | nil => simp [utf8Len]
  | cons c cs ih =>
    rw [List.cons_append]
    simp only [utf8Len]
    rw [ih]
    omega

theorem utf8Len_pos {xs : List Char} (h : xs ≠ []) : 0 < utf8Len xs := by
  cases xs with
  | nil => exact absurd rfl h
  | cons c cs =>
    have := Char.utf8Size_pos c
    simp only [utf8Len]
    omega

theorem charAtByte?_append (xs ys : List Char) (n : Nat) :
    charAtByte? (xs ++ ys) (utf8Len xs + n) = charAtByte? ys n := by
  induction xs with
  | nil => simp [utf8Len]
  | cons c cs ih =>
    have hc := Char.utf8Size_pos c
    show charAtByte? (c :: (cs ++ ys)) (utf8Len (c :: cs) + n) = charAtByte? ys n
    rw [show utf8Len (c :: cs) + n = c.utf8Size + (utf8Len cs + n) from by
      simp only [utf8Len]; omega]
    simp only [charAtByte?]
    rw [if_neg (by simp only [beq_iff_eq]; omega), if_neg (by omega),
      Nat.add_sub_cancel_left]
    exact ih

theorem charAtByte?_last {xs : List Char} (r : Char)
    (hx : xs ≠ []) (h : charAtByte? xs (utf8Len xs - 1) = some r) :
    xs.getLast? = some r := by
  induction xs with
  | nil => exact absurd rfl hx
  | cons c cs ih =>
    cases cs with
    | nil =>
      have hc := Char.utf8Size_pos c
      simp only [utf8Len, Nat.add_zero, charAtByte?] at h
      split at h
      · simp only [Option.some.injEq] at h
        simp [← h]
      · split at h
        · exact absurd h (by simp)
        · rename_i h1 h2
          simp only [beq_iff_eq] at h1
          simp only [not_lt] at h2
          omega
    | cons d ds =>
      have hc := Char.utf8Size_pos c
      have hd : 0 < utf8Len (d :: ds) := utf8Len_pos (by simp)
      have hd2 := Char.utf8Size_pos d
      rw [List.getLast?_cons_cons]
      refine ih (by simp) ?_
      rw [show utf8Len (c :: d :: ds) - 1 = c.utf8Size + (utf8Len (d :: ds) - 1) from by
        simp only [utf8Len]; omega] at h
      rw [show charAtByte? (c :: d :: ds) (c.utf8Size + (utf8Len (d :: ds) - 1)) =
          charAtByte? (d :: ds) (c.utf8Size + (utf8Len (d :: ds) - 1) - c.utf8Size) from by
        simp only [charAtByte?]
        rw [if_neg (by simp only [beq_iff_eq]; omega), if_neg (by omega)]] at h
      rw [Nat.add_sub_cancel_left] at h
      exact h

theorem get_line_spans_aux_spec (cs : List Char) : ∀ (p q : List Char),
    (∀ c ∈ q, c ≠ '\n') →
    contiguous (utf8Len p) (get_line_spans_aux cs (utf8Len p) (utf8Len p + utf8Len q))
      (utf8Len (p ++ q ++ cs)) = true ∧
    (∀ s ∈ (get_line_spans_aux cs (utf8Len p) (utf8Len p + utf8Len q)).dropLast,
      charAtByte? (p ++ q ++ cs) (s.stop - 1) = some '\n') ∧
    (∀ s, (get_line_spans_aux cs (utf8Len p) (utf8Len p + utf8Len q)).getLast? = some s →
      (charAtByte? (p ++ q ++ cs) (s.stop - 1) = some '\n' ↔
        (p ++ q ++ cs).getLast? = some '\n')) ∧
    (get_line_spans_aux cs (utf8Len p) (utf8Len p + utf8Len q) = [] → q = [] ∧ cs = []) := by
  induction cs with
  | nil =>
    intro p q hq
    by_cases hq0 : q = []
    · subst hq0
      simp [get_line_spans_aux, utf8Len, contiguous]
    · have hql : 0 < utf8Len q := utf8Len_pos hq0
      have key : get_line_spans_aux [] (utf8Len p) (utf8Len p + utf8Len q) =
          [⟨utf8Len p, utf8Len p + utf8Len q⟩] := by
        simp only [get_line_spans_aux, if_pos (by omega : utf8Len p < utf8Len p + utf8Len q)]
      rw [key]
      obtain ⟨d, hd⟩ : ∃ d, q.getLast? = some d := by
        cases hgl : q.getLast? with
        | none => exact absurd (List.getLast?_eq_none_iff.mp hgl) hq0
        | some d => exact ⟨d, rfl⟩
      have hdq : d ∈ q := List.mem_of_mem_getLast? (by rw [hd]; rfl)
      have hdn : d ≠ '\n' := hq d hdq
      have hfull : p ++ q ++ [] = p ++ q := by simp
      have hlastfull : (p ++ q).getLast? = some d := by
        rw [List.getLast?_append]
        rw [hd]
        rfl
      refine ⟨?_, ?_, ?_, ?_⟩
      · have hlt : utf8Len p < utf8Len p + utf8Len q := by omega
        simp [contiguous, utf8Len_append, hfull, hlt]
      · simp [List.dropLast]
      · intro s hs
        simp only [List.getLast?_singleton, Option.some.injEq] at hs
        subst hs
        rw [hfull]
        have hne : p ++ q ≠ [] := by
          intro h
          exact hq0 (by simpa using List.append_eq_nil.mp h |>.2)
        have hlhs : charAtByte? (p ++ q) (utf8Len p + utf8Len q - 1) ≠ some '\n' := by
          intro h
          rw [show utf8Len p + utf8Len q = utf8Len (p ++ q) from (utf8Len_append p q).symm] at h
          have := charAtByte?_last '\n' hne h
          rw [hlastfull] at this
          exact hdn (by simpa using this)
        have hrhs : (p ++ q).getLast? ≠ some '\n' := by
          rw [hlastfull]
          intro h
          exact hdn (by simpa using h)
        exact iff_of_false hlhs hrhs
      · intro h
        exact absurd h (by simp)
  | cons c cs' ih =>
    intro p q hq
    by_cases hc : c = '\n'
    · subst hc
      have h1 : ('\n').utf8Size = 1 := by decide
      have key : get_line_spans_aux ('\n' :: cs') (utf8Len p) (utf8Len p + utf8Len q) =
          ⟨utf8Len p, utf8Len p + utf8Len q + 1⟩ ::
            get_line_spans_aux cs' (utf8Len p + utf8Len q + 1) (utf8Len p + utf8Len q + 1) := by
        simp [get_line_spans_aux, h1]
      have e1 : utf8Len (p ++ q ++ ['\n']) = utf8Len p + utf8Len q + 1 := by
        rw [utf8Len_append, utf8Len_append]
        rfl
      have ihc := ih (p ++ q ++ ['\n']) [] (by simp)
      rw [show utf8Len ([] : List Char) = 0 from rfl, Nat.add_zero] at ihc
      rw [e1] at ihc
      rw [show p ++ q ++ ['\n'] ++ [] ++ cs' = p ++ q ++ ('\n' :: cs') from by simp] at ihc
      have hx : charAtByte? (p ++ q ++ ('\n' :: cs')) (utf8Len p + utf8Len q + 1 - 1) =
          some '\n' := by
        rw [show utf8Len p + utf8Len q + 1 - 1 = utf8Len (p ++ q) + 0 from by
          rw [utf8Len_append]
          omega]
        rw [charAtByte?_append]
        rfl
      rw [key]
      refine ⟨?_, ?_, ?_, ?_⟩
      · simp only [contiguous, Bool.and_eq_true, beq_iff_eq, decide_eq_true_eq]
        exact ⟨⟨by trivial, by omega⟩, ihc.1⟩
      · cases hrest : get_line_spans_aux cs' (utf8Len p + utf8Len q + 1)
            (utf8Len p + utf8Len q + 1) with
        | nil => simp [List.dropLast]
        | cons r rs =>
          rw [List.dropLast_cons₂]
          intro s hs
          rcases List.mem_cons.mp hs with h | h
          · subst h
            exact hx
          · exact ihc.2.1 s (by rw [hrest]; exact h)
      · cases hrest : get_line_spans_aux cs' (utf8Len p + utf8Len q + 1)
            (utf8Len p + utf8Len q + 1) with
        | nil =>
          intro s hs
          simp only [List.getLast?_singleton, Option.some.injEq] at hs
          subst hs
          have hcs' : cs' = [] := (ihc.2.2.2 hrest).2
          subst hcs'
          refine iff_of_true hx ?_
          rw [show p ++ q ++ ['\n'] = (p ++ q) ++ ['\n'] from by simp]
          exact List.getLast?_concat _
        | cons r rs =>
          intro s hs
          rw [List.getLast?_cons_cons] at hs
          exact ihc.2.2.1 s (by rw [hrest]; exact hs)
      · intro h
        exact absurd h (by simp)
    · have hb : (c == '\n') = false := by
        simp only [beq_eq_false_iff_ne, ne_eq]
        exact hc
      have key : get_line_spans_aux (c :: cs') (utf8Len p) (utf8Len p + utf8Len q) =
          get_line_spans_aux cs' (utf8Len p) (utf8Len p + utf8Len q + c.utf8Size) := by
        simp [get_line_spans_aux, hb]
      have hq' : ∀ x ∈ q ++ [c], x ≠ '\n' := by
        intro x hx
        rcases List.mem_append.mp hx with h | h
        · exact hq x h
        · simp only [List.mem_singleton] at h
          subst h
          exact hc
      have ihc := ih p (q ++ [c]) hq'
      rw [show utf8Len (q ++ [c]) = utf8Len q + c.utf8Size from by
        rw [utf8Len_append]
        simp [utf8Len]] at ihc
      rw [← Nat.add_assoc] at ihc
      rw [show p ++ (q ++ [c]) ++ cs' = p ++ q ++ (c :: cs') from by simp] at ihc
      rw [key]
      refine ⟨ihc.1, ihc.2.1, ihc.2.2.1, ?_⟩
      · intro h
        rcases ihc.2.2.2 h with ⟨h1, h2⟩
        exact absurd h1 (by simp)

/-- Claim C6: for every input string, `get_line_spans` returns an ordered
sequence of contiguous non-empty half-open spans exactly partitioning the
buffer (first starts at 0, each ends where the next begins, last ends at
the byte length); every span except possibly the last ends with a line
feed; the last span ends with a line feed exactly when the buffer ends
with one; and the result is empty only for the empty input. -/
theorem C6_line_spans_partition (input : List Char) :
    contiguous 0 (get_line_spans input) (utf8Len input) = true ∧
    (∀ s ∈ (get_line_spans input).dropLast, charAtByte? input (s.stop - 1) = some '\n') ∧
    (∀ s, (get_line_spans input).getLast? = some s →
      (charAtByte? input (s.stop - 1) = some '\n' ↔ input.getLast? = some '\n')) ∧
    (get_line_spans input = [] → input = []) := by
  have h := get_line_spans_aux_spec input [] [] (by simp)
  simp only [utf8Len, Nat.add_zero, Nat.zero_add, List.nil_append] at h
  simp only [get_line_spans]
  exact ⟨h.1, h.2.1, h.2.2.1, fun he => (h.2.2.2 he).2⟩

/-- Claim C6, witness: the spans of `"ab\ncd"` partition it into `0..3`
and `3..5`, and the first (non-final) span ends with the line feed. -/
theorem C6_line_spans_partition_witness :
    contiguous 0 (get_line_spans ("ab\ncd").toList) (utf8Len ("ab\ncd").toList) = true ∧
    charAtByte? ("ab\ncd").toList ((⟨0, 3⟩ : Span).stop - 1) = some '\n' :=
  ⟨(C6_line_spans_partition _).1,
   (C6_line_spans_partition ("ab\ncd").toList).2.1 ⟨0, 3⟩ (by decide)⟩

/-! ## Outcome facts about the constructors -/

theorem partial_parsed_ne_err (message : List Char)
    (method uri http_version : Option Span) (headers : List Span)
    (body : Option Span) (e : Error) :
    PartialHttpRequest.parsed message method uri http_version headers body ≠
      Outcome.err e := by
  unfold PartialHttpRequest.parsed
  split <;> simp

theorem parsed_parsed_ne_err (message : List Char)
    (method uri http_version : Span) (headers : List Span)
    (body : Option Span) (e : Error) :
    ParsedHttpRequest.parsed message method uri http_version headers body ≠
      Outcome.err e := by
  unfold ParsedHttpRequest.parsed
  split <;> simp

theorem partial_parsed_ne_fatal_iff (message : List Char)
    (method uri http_version : Option Span) (headers : List Span)
    (body : Option Span) :
    PartialHttpRequest.parsed message method uri http_version headers body ≠
        Outcome.fatal ↔
      PartialHttpRequest.verify_spans message method uri http_version headers body =
        true := by
  unfold PartialHttpRequest.parsed
  split <;> simp_all

theorem parsed_parsed_ne_fatal_iff (message : List Char)
    (method uri http_version : Span) (headers : List Span)
    (body : Option Span) :
    ParsedHttpRequest.parsed message method uri http_version headers body ≠
        Outcome.fatal ↔
      ParsedHttpRequest.verify_spans message method uri http_version headers body =
        true := by
  unfold ParsedHttpRequest.parsed
  split <;> simp_all

/-- Claim C5: strict parsing returns the typed `EmptyHttpMessage` error
exactly for the inputs whose whitespace-trimmed content is empty; on those
inputs it neither succeeds nor stops fatally, and no other input ever
produces `EmptyHttpMessage`. -/
theorem C5_strict_empty_error_iff_trimmed_empty (input : List Char) :
    parsedParseRequest input = Outcome.err Error.emptyHttpMessage ↔
      (rustTrim input).isEmpty = true := by
  by_cases h : (rustTrim input).isEmpty = true
  · unfold parsedParseRequest
    rw [if_pos h]
    simp [h]
  · constructor
    · intro hc
      exfalso
      unfold parsedParseRequest at hc
      rw [if_neg h] at hc
      split at hc
      · simp at hc
      · split at hc
        · simp at hc
        · split at hc
          · split at hc
            · simp at hc
            · exact parsed_parsed_ne_err _ _ _ _ _ _ _ hc
          all_goals simp at hc
    · intro hc
      exact absurd hc h

/-- Claim C5, witness: the all-whitespace buffer `"  "` trims to empty and
strict parsing rejects it with `EmptyHttpMessage`. -/
theorem C5_strict_empty_error_witness :
    parsedParseRequest ("  ").toList = Outcome.err Error.emptyHttpMessage :=
  (C5_strict_empty_error_iff_trimmed_empty _).mpr (by decide)

/-- Claim C9: for every input consisting only of whitespace, lenient
parsing succeeds and produces the view with method, uri and version all
absent, no headers and no body. -/
theorem C9_whitespace_lenient_all_absent (input : List Char)
    (h : (rustTrim input).isEmpty = true) :
    partialParseRequest input = Outcome.ok ⟨input, none, none, none, [], none⟩ := by
  unfold partialParseRequest
  rw [if_pos h]
  rfl

/-- Claim C9, witness: the single blank line parses leniently to the
all-absent view. -/
theorem C9_whitespace_lenient_witness :
    (rustTrim ("\n").toList).isEmpty = true ∧
    partialParseRequest ("\n").toList =
      Outcome.ok ⟨("\n").toList, none, none, none, [], none⟩ :=
  ⟨by decide, C9_whitespace_lenient_all_absent _ (by decide)⟩


/-- Claim C4 (amended): view construction is fatal unless every present
span is in bounds (on character boundaries) and non-inverted (strict-mode
body: non-inverted is weakened to `start <= end`), and the method, uri and
version spans are strictly ordered left to right; header and body spans
are checked for validity only — their position relative to the request
line or to each other is not asserted. -/
theorem C4_verifier_characterization (message : List Char)
    (method uri http_version : Option Span) (headers : List Span) (body : Option Span)
    (m u v : Span) (hs : List Span) (b : Option Span) :
    (PartialHttpRequest.parsed message method uri http_version headers body ≠
        Outcome.fatal ↔
      ((∀ s ∈ method, SpanWf message s) ∧
       (∀ s ∈ uri, SpanWf message s ∧ ∀ t ∈ method, t.start < s.start ∧ t.stop < s.start) ∧
       (∀ s ∈ http_version, SpanWf message s ∧ ∀ t ∈ uri, t.start < s.start ∧ t.stop < s.start) ∧
       (∀ s ∈ headers, SpanWf message s) ∧
       (∀ s ∈ body, SpanWf message s))) ∧
    (ParsedHttpRequest.parsed message m u v hs b ≠ Outcome.fatal ↔
      (SpanWf message m ∧
       (SpanWf message u ∧ m.start < u.start ∧ m.stop < u.start) ∧
       (SpanWf message v ∧ u.start < v.start ∧ u.stop < v.start) ∧
       (∀ s ∈ hs, SpanWf message s) ∧
       (∀ s ∈ b, s.start ≤ s.stop ∧ assert_text_span message s = true))) := by
  constructor
  · rw [partial_parsed_ne_fatal_iff]
    unfold PartialHttpRequest.verify_spans
    cases method <;> cases uri <;> cases http_version <;> cases body <;>
      simp [SpanWf, List.all_eq_true, Option.mem_def, and_assoc]
  · rw [parsed_parsed_ne_fatal_iff]
    unfold ParsedHttpRequest.verify_spans
    cases b <;> simp [SpanWf, List.all_eq_true, Option.mem_def, and_assoc]

/-- Claim C4, counterexample: a view whose single header span `0..1` lies
entirely before its version span `1..2` is accepted by the verifier — no
assertion relates header spans to the request line, so the claimed fatal
failure does not happen. -/
theorem C4_counterexample_header_before_version :
    PartialHttpRequest.parsed ("ab").toList none none (some ⟨1, 2⟩) [⟨0, 1⟩] none =
      Outcome.ok ⟨("ab").toList, none, none, some ⟨1, 2⟩, [⟨0, 1⟩], none⟩ := by
  decide

/-- Claim C4, witness: the characterization applied at an inverted method
span, which the verifier rejects fatally. -/
theorem C4_verifier_characterization_witness :
    PartialHttpRequest.parsed [] (some ⟨2, 1⟩) none none [] none = Outcome.fatal := by
  by_contra h
  have h2 := ((C4_verifier_characterization [] (some ⟨2, 1⟩) none none [] none
      ⟨0, 1⟩ ⟨0, 1⟩ ⟨0, 1⟩ [] none).1.mp h).1 ⟨2, 1⟩ rfl
  exact absurd h2.1 (by decide)

theorem rustSlice_eq_some {α : Type} (xs : List α) (a b : Nat) (ys : List α)
    (h : rustSlice xs a b = some ys) :
    ys = (xs.drop a).take (b - a) ∧ a ≤ b ∧ b ≤ xs.length := by
  unfold rustSlice at h
  split at h
  · rename_i hc
    simp only [Option.some.injEq] at h
    exact ⟨h.symm, hc.1, hc.2⟩
  · simp at h

theorem parsedGetHeaderAndBodySpans_headers (ls : List Span) (idx : Nat)
    (hs : List Span) (bs : Option (List Span))
    (h : parsedGetHeaderAndBodySpans ls idx = some (hs, bs)) :
    hs = (ls.take idx).drop 1 := by
  unfold parsedGetHeaderAndBodySpans at h
  split at h
  · rename_i a b heq1 heq2
    simp only [Option.some.injEq, Prod.mk.injEq] at h
    rw [List.drop_take]
    rw [← h.1, (rustSlice_eq_some ls 1 idx a heq1).1]
  · simp at h

theorem partialGetHeaderAndBodySpans_headers_some (ls : List Span) (idx : Nat)
    (hs : List Span) (bs : Option (List Span))
    (h : partialGetHeaderAndBodySpans ls (some idx) = some (hs, bs)) :
    hs = (ls.take idx).drop 1 := by
  unfold partialGetHeaderAndBodySpans at h
  split at h
  · rename_i idx2 heq
    injection heq with heq2
    subst heq2
    split at h
    · rename_i a b heq1 heq3
      simp only [Option.some.injEq, Prod.mk.injEq] at h
      rw [List.drop_take]
      rw [← h.1, (rustSlice_eq_some ls 1 idx a heq1).1]
    · simp at h
  · rename_i heq
    simp at heq

theorem partialGetHeaderAndBodySpans_headers_none (ls : List Span)
    (hs : List Span) (bs : Option (List Span))
    (h : partialGetHeaderAndBodySpans ls none = some (hs, bs)) :
    hs = ls.drop 1 := by
  unfold partialGetHeaderAndBodySpans at h
  split at h
  · rename_i idx2 heq
    simp at heq
  · split at h
    · rename_i a heq1
      simp only [Option.some.injEq, Prod.mk.injEq] at h
      have ha := (rustSlice_eq_some ls 1 ls.length a heq1).1
      rw [← h.1, ha]
      rw [show ls.length - 1 = (ls.drop 1).length from by rw [List.length_drop]]
      exact List.take_length _
    · simp at h

/-- Claim C7 (amended): whenever a non-empty parse constructs a view (in
either mode), its header spans are exactly the line spans strictly between
the first line span and the first line span of length 1, exclusive of
both; in lenient mode, with no length-1 line span, they are all line spans
after the first. (When the first line span itself has length 1, the
`[1..0]` header slice is out of range and construction is fatal instead of
producing a view — see the counterexample.) -/
theorem C7_header_spans_between_first_and_blank (input : List Char)
    (v : PartialHttpRequest) (w : ParsedHttpRequest) :
    ((rustTrim input).isEmpty = false → partialParseRequest input = Outcome.ok v →
      (∀ idx, (get_line_spans input).findIdx? (fun s => spanLen s == 1) = some idx →
        v.headers = ((get_line_spans input).take idx).drop 1) ∧
      ((get_line_spans input).findIdx? (fun s => spanLen s == 1) = none →
        v.headers = (get_line_spans input).drop 1)) ∧
    (parsedParseRequest input = Outcome.ok w →
      ∃ idx, (get_line_spans input).findIdx? (fun s => spanLen s == 1) = some idx ∧
        w.headers = ((get_line_spans input).take idx).drop 1) := by
  constructor
  · intro ht hok
    unfold partialParseRequest at hok
    rw [if_neg (by simp [ht])] at hok
    constructor
    · intro idx hfi
      rw [hfi] at hok
      split at hok
      · simp at hok
      · rename_i header_spans body_spans heq
        unfold PartialHttpRequest.parsed at hok
        split at hok
        · simp only [Outcome.ok.injEq] at hok
          rw [← hok]
          exact partialGetHeaderAndBodySpans_headers_some _ _ _ _ heq
        · simp at hok
    · intro hfi
      rw [hfi] at hok
      split at hok
      · simp at hok
      · rename_i header_spans body_spans heq
        unfold PartialHttpRequest.parsed at hok
        split at hok
        · simp only [Outcome.ok.injEq] at hok
          rw [← hok]
          exact partialGetHeaderAndBodySpans_headers_none _ _ _ heq
        · simp at hok
  · intro hok
    unfold parsedParseRequest at hok
    split at hok
    · simp at hok
    · split at hok
      · simp at hok
      · rename_i idx hfi
        refine ⟨idx, hfi, ?_⟩
        split at hok
        · simp at hok
        · rename_i first_line hhead
          split at hok
          all_goals try simp at hok
          rename_i method uri http_version hpfl
          split at hok
          · simp at hok
          · rename_i header_spans body_spans hgh
            unfold ParsedHttpRequest.parsed at hok
            split at hok
            · simp only [Outcome.ok.injEq] at hok
              rw [← hok]
              exact parsedGetHeaderAndBodySpans_headers _ _ _ _ hgh
            · simp at hok

/-- Claim C7, counterexample: `"\nabc"` is a non-empty lenient parse whose
first blank line is the first line (index 0); the claim then demands a view
with no header spans, but the `[1..0]` header slice is out of range and the
parse is fatal — no view results. -/
theorem C7_counterexample_blank_first_line :
    partialParseRequest ("\nabc").toList = Outcome.fatal := by decide

/-- Claim C7, witness: for `"GET / HTTP/1.1\nA: b\n\nhi"` the blank line is
line 2 and the lenient view's headers are exactly the line spans strictly
between the first line and the blank line. -/
theorem C7_header_spans_witness :
    (⟨("GET / HTTP/1.1\nA: b\n\nhi").toList, some ⟨0, 3⟩, some ⟨4, 5⟩, some ⟨6, 14⟩,
        [⟨15, 20⟩], some ⟨21, 23⟩⟩ : PartialHttpRequest).headers =
      ((get_line_spans ("GET / HTTP/1.1\nA: b\n\nhi").toList).take 2).drop 1 :=
  ((C7_header_spans_between_first_and_blank ("GET / HTTP/1.1\nA: b\n\nhi").toList
      ⟨("GET / HTTP/1.1\nA: b\n\nhi").toList, some ⟨0, 3⟩, some ⟨4, 5⟩, some ⟨6, 14⟩,
        [⟨15, 20⟩], some ⟨21, 23⟩⟩
      ⟨("GET / HTTP/1.1\nA: b\n\nhi").toList, ⟨0, 3⟩, ⟨4, 5⟩, ⟨6, 14⟩,
        [⟨15, 20⟩], some ⟨21, 23⟩⟩).1 (by decide) (by decide)).1 2 (by decide)

/-- Claim C1 (code bug): lenient parsing is not total. On `"a\n\n"` the
blank-line separator is the last line, the computed body span is the empty
`3..3` (the lenient `get_span_extent_from_spans` lacks the empty-span
normalization its strict twin has), and the `start < end` body assertion of
`verify_spans` fails: `PartialHttpRequest::from_str` dies instead of
returning a view. The rendering half of the claim does hold: whenever the
lenient parse does return a view, displaying it reproduces the input
byte-for-byte. -/
theorem C1_lenient_parse_fatal_on_trailing_blank :
    partialParseRequest ("a\n\n").toList = Outcome.fatal ∧
    ∀ (input : List Char) (v : PartialHttpRequest),
      partialParseRequest input = Outcome.ok v → v.render = input := by
  refine ⟨by decide, ?_⟩
  intro input v hok
  unfold partialParseRequest at hok
  split at hok
  · unfold PartialHttpRequest.parsed at hok
    split at hok
    · simp only [Outcome.ok.injEq] at hok
      rw [← hok]
      rfl
    · simp at hok
  · split at hok
    · simp at hok
    · rename_i header_spans body_spans heq
      unfold PartialHttpRequest.parsed at hok
      split at hok
      · simp only [Outcome.ok.injEq] at hok
        rw [← hok]
        rfl
      · simp at hok

/-- Claim C3 (code bug): on `"GET / HTTP/1.1\n\n"` the blank-line separator
exists and the computed body span `16..16` is empty. Strict parsing
normalizes it to an absent body and succeeds; the lenient
`get_span_extent_from_spans` returns the empty span unnormalized, and the
lenient parse is fatal rather than producing a view with an absent body. -/
theorem C3_empty_body_strict_none_lenient_fatal :
    parsedParseRequest ("GET / HTTP/1.1\n\n").toList =
      Outcome.ok ⟨("GET / HTTP/1.1\n\n").toList, ⟨0, 3⟩, ⟨4, 5⟩, ⟨6, 14⟩, [], none⟩ ∧
    partialGetSpanExtentFromSpans (some [⟨15, 16⟩]) = some ⟨16, 16⟩ ∧
    parsedGetSpanExtentFromSpans (some [⟨15, 16⟩]) = none ∧
    partialParseRequest ("GET / HTTP/1.1\n\n").toList = Outcome.fatal := by
  refine ⟨by decide, by decide, by decide, by decide⟩

/-- Claim C8 (code bug): on the first line of three characters
a, U+00A0 no-break space, b (the whitespace character is two bytes)
no-break space between the tokens) the tokenizer advances past the
whitespace character by one byte instead of its UTF-8 width, so the second
token span comes out as `2..4` — starting inside the no-break space, not at
the maximal non-whitespace run `"b"` at `3..4`; offset 2 is not a character
boundary, and the lenient parse then dies on the span assertions. -/
theorem C8_tokenizer_misaligned_on_multibyte_whitespace :
    parse_first_line ("a\u00A0b").toList = (some ⟨0, 1⟩, some ⟨2, 4⟩, none) ∧
    isBoundary ("a\u00A0b").toList 2 = false ∧
    partialParseRequest ("a\u00A0b").toList = Outcome.fatal := by
  refine ⟨by decide, by decide, by decide⟩

/-- Claim C10: the header/body boundary is chosen purely by span length.
In `"GET / HTTP/1.1\nZ"` the final unterminated line `"Z"` has span
`15..16` of length exactly 1 and is selected as the separator (index 1);
strict parsing then yields a view with no headers and no body, and the
lenient extractor likewise excludes it from the headers and computes the
body spans from it. -/
theorem C10_blank_line_by_length_not_content :
    (get_line_spans ("GET / HTTP/1.1\nZ").toList).findIdx?
        (fun s => spanLen s == 1) = some 1 ∧
    parsedParseRequest ("GET / HTTP/1.1\nZ").toList =
      Outcome.ok ⟨("GET / HTTP/1.1\nZ").toList, ⟨0, 3⟩, ⟨4, 5⟩, ⟨6, 14⟩, [], none⟩ ∧
    partialGetHeaderAndBodySpans (get_line_spans ("GET / HTTP/1.1\nZ").toList)
        (some 1) = some ([], some [⟨15, 16⟩]) := by
  refine ⟨by decide, by decide, by decide⟩


/-- Claim C2: conversion of a lenient view fails with `MissingRequired`
naming the first absent field among method, uri (target) and version, in
that order; a view without a version never converts successfully — the
version is not silently defaulted. -/
theorem C2_conversion_missing_required (v : PartialHttpRequest) :
    (v.method = none →
      tryIntoHttpRequest v = Outcome.err (Error.missingRequired "method")) ∧
    (v.method ≠ none → v.uri = none →
      tryIntoHttpRequest v = Outcome.err (Error.missingRequired "uri")) ∧
    (v.method ≠ none → v.uri ≠ none → v.http_version = none →
      tryIntoHttpRequest v = Outcome.err (Error.missingRequired "http version")) ∧
    (v.http_version = none → ∀ r, tryIntoHttpRequest v ≠ Outcome.ok r) := by
  obtain ⟨msg, m, u, hv, hs, b⟩ := v
  refine ⟨?_, ?_, ?_, ?_⟩ <;>
    cases m <;> cases u <;> cases hv <;> simp [tryIntoHttpRequest]

/-- Claim C2, witness: the lenient view of
`"GET https://example.com\nx-key: 123"` has no version span, and its
conversion fails with `MissingRequired` naming the http version. -/
theorem C2_conversion_missing_required_witness :
    partialParseRequest ("GET https://example.com\nx-key: 123").toList =
      Outcome.ok ⟨("GET https://example.com\nx-key: 123").toList,
        some ⟨0, 3⟩, some ⟨4, 23⟩, none, [⟨24, 34⟩], none⟩ ∧
    tryIntoHttpRequest ⟨("GET https://example.com\nx-key: 123").toList,
        some ⟨0, 3⟩, some ⟨4, 23⟩, none, [⟨24, 34⟩], none⟩ =
      Outcome.err (Error.missingRequired "http version") :=
  ⟨by decide,
   (C2_conversion_missing_required _).2.2.1 (by simp) (by simp) rfl⟩
